import Mathlib

/-!
Verification of the reachability / wake-on-LAN core of `server.py`.

The Python source is shallowly embedded: strings become `List Char` (via
`String.data`), `bytes` values become `List Nat` (each entry one byte),
Python exceptions become `Except` error values, and the two network oracles
(the `ping` subprocess and `requests.get`) become explicit environment
functions, since their outcomes depend on the outside world.
-/

set_option maxRecDepth 8192

namespace DadDashboard

/-! ## Character helpers (ASCII ranges used by the Python runtime) -/

/-- Decimal ASCII digit, mirroring `str.isascii() and str.isdigit()` on one char. -/
def isAsciiDigit (c : Char) : Bool :=
  decide (48 ≤ c.toNat ∧ c.toNat ≤ 57)

/-- ASCII letter, mirroring `str.isascii() and str.isalpha()` on one char. -/
def isAsciiAlpha (c : Char) : Bool :=
  decide ((65 ≤ c.toNat ∧ c.toNat ≤ 90) ∨ (97 ≤ c.toNat ∧ c.toNat ≤ 122))

/-- Hexadecimal digit as accepted by CPython `bytes.fromhex` and
`ipaddress` hextet parsing: `0-9`, `A-F`, `a-f`. -/
def isHexChar (c : Char) : Bool :=
  decide ((48 ≤ c.toNat ∧ c.toNat ≤ 57) ∨ (65 ≤ c.toNat ∧ c.toNat ≤ 70) ∨
    (97 ≤ c.toNat ∧ c.toNat ≤ 102))

/-- Value of a hexadecimal digit, `none` for any other character. -/
def hexVal? (c : Char) : Option Nat :=
  if 48 ≤ c.toNat ∧ c.toNat ≤ 57 then some (c.toNat - 48)
  else if 65 ≤ c.toNat ∧ c.toNat ≤ 70 then some (c.toNat - 55)
  else if 97 ≤ c.toNat ∧ c.toNat ≤ 102 then some (c.toNat - 87)
  else none

/-- ASCII whitespace skipped by CPython `bytes.fromhex` (`Py_ISSPACE`):
space, tab, newline, vertical tab, form feed, carriage return. -/
def isPySpace (c : Char) : Bool :=
  decide (c.toNat = 32 ∨ (9 ≤ c.toNat ∧ c.toNat ≤ 13))

/-! ## CPython `bytes.fromhex`

CPython reads the string left to right; ASCII whitespace may appear
between byte pairs (and at both ends) and is skipped, but the two hex
digits of one byte must be adjacent.  Any other character, or a dangling
single digit, raises `ValueError`. -/

/-- Model of `bytes.fromhex`: `none` models the `ValueError` raise. -/
def fromhex : List Char → Option (List Nat)
  | [] => some []
  | [c] => if isPySpace c then some [] else none
  | c :: d :: rest =>
    if isPySpace c then fromhex (d :: rest)
    else
      match hexVal? c with
      | none => none
      | some hi =>
        match hexVal? d with
        | none => none
        | some lo => (fromhex rest).map (fun bs => (16 * hi + lo) :: bs)

/-! ## The wake signaler: `wake_on_lan` (server.py lines 59-74) -/

/-- Python `str * n` repetition (also used for `'FF' * 6`). -/
def repList {α : Type} : Nat → List α → List α
  | 0, _ => []
  | n + 1, l => l ++ repList n l

/-- Error raised by `wake_on_lan`; both constructors are a Python
`ValueError` (`InvalidAddress` in the specification's taxonomy). -/
inductive WolError where
  | lengthError : WolError
  | fromhexError : WolError
deriving DecidableEq

/-- Separator stripping of `wake_on_lan`:
`mac_address.replace(":", "").replace("-", "")`. -/
def normalizeMac (mac : String) : List Char :=
  mac.data.filter (fun c => !(c == ':' || c == '-'))

/-- Model of `wake_on_lan`: returns the payload of the broadcast datagram
handed to `socket.sendto`, or the `ValueError` raised before any socket is
opened.  `Except.ok data` means one datagram with exactly `data` as payload
is broadcast to port 9. -/
def wake_on_lan (mac : String) : Except WolError (List Nat) :=
  let m := normalizeMac mac
  if m.length = 12 then
    match fromhex (repList 6 ['F', 'F'] ++ repList 16 m) with
    | some data => Except.ok data
    | none => Except.error WolError.fromhexError
  else Except.error WolError.lengthError

/-- Length of the datagram actually broadcast by `wake_on_lan`, `none`
when the call raises before the socket is opened. -/
def payloadLen (mac : String) : Option Nat :=
  match wake_on_lan mac with
  | Except.ok data => some data.length
  | Except.error _ => none

/-- Whether `wake_on_lan` raises (so no socket is opened and no datagram
is broadcast). -/
def raisesWol (mac : String) : Bool :=
  match wake_on_lan mac with
  | Except.error _ => true
  | Except.ok _ => false

/-- Validity of a hardware address exactly as the specification defines it:
the normalized form is 12 hexadecimal characters. -/
def isValidMac (mac : String) : Bool :=
  (normalizeMac mac).length == 12 && (normalizeMac mac).all isHexChar

/-- Payload demanded by the specification: 6 bytes of `0xFF` followed by
the 6-byte address repeated 16 times. -/
def specPacket (mac : String) : List Nat :=
  List.replicate 6 255 ++ repList 16 ((fromhex (normalizeMac mac)).getD [])

/-! ## Target classification: `ipaddress.ip_address` (used by `_is_ip_address`)

CPython's `ipaddress.ip_address(s)` tries a strict IPv4 parse, then a
strict IPv6 parse, and raises `ValueError` when both fail.  The models
below follow `IPv4Address._parse_octet`, `IPv6Address._split_scope_id`
and `IPv6Address._ip_int_from_string` of CPython 3.9+. -/

/-- Python `str.split(sep)` for a one-character separator. -/
def splitOnChar (sep : Char) : List Char → List (List Char)
  | [] => [[]]
  | c :: rest =>
    let r := splitOnChar sep rest
    if c = sep then [] :: r
    else
      match r with
      | [] => [[c]]
      | h :: t => (c :: h) :: t

/-- Model of `IPv4Address._parse_octet`: 1-3 ASCII decimal digits, no
leading zero (unless the octet is exactly `0`), value at most 255. -/
def parseOctet? (s : List Char) : Option Nat :=
  if s = [] then none
  else if !(s.all isAsciiDigit) then none
  else if 3 < s.length then none
  else
    let v := s.foldl (fun a c => 10 * a + (c.toNat - 48)) 0
    if 255 < v then none
    else if 1 < s.length ∧ s.headD ' ' = '0' then none
    else some v

/-- Model of a strict IPv4 literal parse (`IPv4Address(s)`): exactly four
valid octets separated by dots; result is the 32-bit address value.
The constructor also rejects any string containing a slash. -/
def parseIPv4? (s : List Char) : Option Nat :=
  if s.contains '/' then none
  else
    match (splitOnChar '.' s).mapM parseOctet? with
    | some [a, b, c, d] => some (((a * 256 + b) * 256 + c) * 256 + d)
    | _ => none

/-- Model of `IPv6Address._parse_hextet`: 1-4 hexadecimal digits. -/
def parseHextet? (s : List Char) : Option Nat :=
  if !(s.all isHexChar) then none
  else if 4 < s.length then none
  else if s = [] then none
  else some (s.foldl (fun a c => 16 * a + (hexVal? c).getD 0) 0)

/-- Lowercase hexadecimal rendering, as CPython's `'%x' % n` (used when an
embedded IPv4 suffix is rewritten into two hextets). -/
def natHexChars (n : Nat) : List Char :=
  Nat.toDigits 16 n

/-- Part-list preparation of `IPv6Address._ip_int_from_string`: split on
colons, require at least three parts, and replace a dotted last part by
the two hextets of its (strictly parsed) IPv4 value. -/
def ipv6Parts? (s : List Char) : Option (List (List Char)) :=
  let parts := splitOnChar ':' s
  if parts.length < 3 then none
  else
    let last := parts.getLastD []
    if last.contains '.' then
      match parseIPv4? last with
      | some v =>
        some (parts.dropLast ++ [natHexChars (v / 65536), natHexChars (v % 65536)])
      | none => none
    else some parts

/-- Validation of the colon-separated part list, following the `::`
(skip-index) analysis of `IPv6Address._ip_int_from_string`: at most 9
parts, at most one empty interior part, an empty first (last) part only
as the start (end) of a `::`, at least one hextet actually skipped by
`::`, and every retained part a valid hextet (exactly 8 of them when
there is no `::`). -/
def ipv6PartsValid (parts : List (List Char)) : Bool :=
  if 9 < parts.length then false
  else
    let n := parts.length
    match (List.range n).filter (fun i => decide (0 < i ∧ i < n - 1) && (parts.getD i [' ']).isEmpty) with
    | [] =>
      n == 8 && parts.all (fun p => (parseHextet? p).isSome)
    | [i] =>
      let firstEmpty := (parts.getD 0 [' ']).isEmpty
      let lastEmpty := (parts.getD (n - 1) [' ']).isEmpty
      let hi := if firstEmpty then 0 else i
      let lo := if lastEmpty then 0 else n - i - 1
      (!firstEmpty || i == 1) && (!lastEmpty || i == n - 2) &&
      (hi + lo ≤ 7) &&
      ((parts.take hi).all (fun p => (parseHextet? p).isSome)) &&
      ((parts.drop (n - lo)).all (fun p => (parseHextet? p).isSome))
    | _ => false

/-- Model of a strict IPv6 literal parse (`IPv6Address(s)`): reject a
slash, split off an optional non-empty `%scope` suffix, then validate
the address body. -/
def ipv6Valid (s : List Char) : Bool :=
  if s.contains '/' then false
  else
    let body := s.takeWhile (fun c => c ≠ '%')
    let rest := s.drop (body.length)
    let scopeOk :=
      match rest with
      | [] => true
      | _ :: scope => !scope.isEmpty && !scope.contains '%'
    scopeOk &&
      (match ipv6Parts? body with
       | some parts => ipv6PartsValid parts
       | none => false)

/-- Model of `_is_ip_address` (server.py lines 148-153): true iff
`ipaddress.ip_address` accepts the string. -/
def _is_ip_address (value : String) : Bool :=
  (parseIPv4? value.data).isSome || ipv6Valid value.data

/-! ## ASCII case maps (Python `str.lower` / `str.upper` on ASCII text) -/

/-- ASCII lowercase map; agrees with Python `str.lower` on ASCII strings
(the only strings the reachability core handles). -/
def asciiLower (c : Char) : Char :=
  if 65 ≤ c.toNat ∧ c.toNat ≤ 90 then Char.ofNat (c.toNat + 32) else c

/-- ASCII uppercase map; agrees with Python `str.upper` on ASCII strings. -/
def asciiUpper (c : Char) : Char :=
  if 97 ≤ c.toNat ∧ c.toNat ≤ 122 then Char.ofNat (c.toNat - 32) else c

/-- Apply a character map to a whole string. -/
def strMap (u : Char → Char) (s : String) : String :=
  String.mk (s.data.map u)

/-- Python `str.lower` restricted to ASCII. -/
def strLower (s : String) : String := strMap asciiLower s

/-- Python `str.upper` restricted to ASCII. -/
def strUpper (s : String) : String := strMap asciiUpper s

/-! ## `urllib.parse.urlparse`, the fragment used by `is_online`

`is_online` only reads `parsed.scheme`, but `urlsplit` itself can raise
`ValueError` (message `Invalid IPv6 URL`) when the authority component
contains a `[` without `]` or vice versa.  The model covers the scheme
detection (CPython 3.11 rule: the text before the first colon must start
with an ASCII letter and consist of letters, digits, `+`, `-`, `.`) and
that bracket check; the control-character stripping and bracketed-host
validation of newer CPython are outside the modeled fragment. -/

/-- Characters allowed in a URL scheme (`urllib.parse.scheme_chars`). -/
def schemeCharB (c : Char) : Bool :=
  isAsciiAlpha c || isAsciiDigit c || c == '+' || c == '-' || c == '.'

/-- Index of the first occurrence of a character. -/
def findIdxOf (a : Char) : List Char → Option Nat
  | [] => none
  | c :: rest => if c = a then some 0 else (findIdxOf a rest).map (fun i => i + 1)

/-- Scheme detection of `urlsplit`: returns the (lowercased) scheme and
the remainder after the colon, or an empty scheme and the whole input. -/
def splitScheme (url : List Char) : List Char × List Char :=
  match findIdxOf ':' url with
  | some i =>
    if 0 < i ∧ isAsciiAlpha (url.headD ' ') = true ∧ (url.take i).all schemeCharB then
      ((url.take i).map asciiLower, url.drop (i + 1))
    else ([], url)
  | none => ([], url)

/-- Error raised by `urlsplit` on a mismatched bracket in the authority. -/
inductive UrlError where
  | invalidIPv6URL : UrlError
deriving DecidableEq

/-- Model of `urlparse(target).scheme` together with the `ValueError` that
`urlsplit` raises on a mismatched `[`/`]` in the authority component. -/
def urlparseScheme (url : List Char) : Except UrlError (List Char) :=
  let p := splitScheme url
  if (p.2.take 2) = ['/', '/'] then
    let netloc := (p.2.drop 2).takeWhile (fun c => !(c == '/' || c == '?' || c == '#'))
    if netloc.contains '[' ≠ netloc.contains ']' then Except.error UrlError.invalidIPv6URL
    else Except.ok p.1
  else Except.ok p.1

/-! ## The reachability prober: `is_online` (server.py lines 156-184) -/

/-- Outcomes of the two network primitives the prober consumes.  `ping`
gives the exit status of the spawned probe process, or `none` when the
executable cannot be run at all (`subprocess.call` raises
`FileNotFoundError`).  `http` gives the response status of
`requests.get(url, timeout=1)`, or `none` when the request layer raises a
`requests.RequestException` (transport error, timeout, DNS failure). -/
structure ProbeEnv where
  ping : List String → Option Nat
  http : String → Option Nat

/-- Exceptions that escape `is_online` uncaught. -/
inductive ProbeError where
  | fileNotFound : ProbeError
  | valueError : ProbeError
deriving DecidableEq

/-- Argument vector built for the echo probe:
`["ping", "-c", "1", "-W", "1", target]`. -/
def ping_command (target : String) : List String :=
  ["ping", "-c", "1", "-W", "1", target]

/-- Address branch of `is_online`: spawn one echo probe; reachable iff the
exit status is 0.  A missing probe executable raises. -/
def ping_probe (env : ProbeEnv) (target : String) : Except ProbeError Bool :=
  match env.ping (ping_command target) with
  | some code => Except.ok (code == 0)
  | none => Except.error ProbeError.fileNotFound

/-- URL the named branch actually requests: the target itself, or with
`http://` prepended when no scheme was detected. -/
def namedUrl (target : String) (scheme : List Char) : String :=
  if scheme.isEmpty then ("http://" ++ target) else target

/-- Named branch of `is_online`: parse the URL, default the scheme to
`http`, issue one GET; reachable iff the status is exactly 200, any
`requests.RequestException` gives `false`, but a `ValueError` from
`urlparse` escapes. -/
def http_probe (env : ProbeEnv) (target : String) : Except ProbeError Bool :=
  match urlparseScheme target.data with
  | Except.error _ => Except.error ProbeError.valueError
  | Except.ok scheme =>
    match env.http (namedUrl target scheme) with
    | some code => Except.ok (code == 200)
    | none => Except.ok false

/-- Model of `is_online`: branch on the syntactic classification and run
exactly one probe. -/
def is_online (env : ProbeEnv) (target : String) : Except ProbeError Bool :=
  if _is_ip_address target then ping_probe env target else http_probe env target

/-- The two target variants of the specification's data model. -/
inductive TargetClass where
  | address : TargetClass
  | named : TargetClass
deriving DecidableEq

/-- Classification implicit in `is_online`: strict IP literals are the
Address variant, everything else the Named variant. -/
def classify (target : String) : TargetClass :=
  if _is_ip_address target then TargetClass.address else TargetClass.named

/-- Boolean value `is_online` produced, defaulting to `false` when the
call raised (used only to state results; the endpoint model below keeps
the raise visible). -/
def onlineValue (env : ProbeEnv) (target : String) : Bool :=
  match is_online env target with
  | Except.ok b => b
  | Except.error _ => false

/-- Whether `urlparse` accepts the target without raising. -/
def urlOk (t : String) : Bool :=
  match urlparseScheme t.data with
  | Except.ok _ => true
  | Except.error _ => false

/-- Precondition under which `is_online` cannot raise: for an address
target the echo-probe executable must be runnable, for a named target the
URL parse must succeed. -/
def probe_runnable (env : ProbeEnv) (t : String) : Bool :=
  if _is_ip_address t then (env.ping (ping_command t)).isSome else urlOk t

/-- Model of the status endpoint (server.py lines 271-275):
`Except.ok (b, 200)` is the JSON body `online: b` with HTTP status 200;
`Except.error e` is an exception escaping the handler (the framework then
answers with an error status, not a 200 body). -/
def api_web_ui_status (env : ProbeEnv) (ip : String) : Except ProbeError (Bool × Nat) :=
  match is_online env ip with
  | Except.ok b => Except.ok (b, 200)
  | Except.error e => Except.error e

/-! ## The wake-and-wait orchestrator: `api_log_redirect` (server.py 247-260)

The handler sends the wake signal once, then blocks in two successive
polling loops (host address first, then the named web UI), sleeping one
second after every failed probe.  The loops are unbounded; they are
embedded by feeding each loop the finite prefix of successive `is_online`
results it consumes (the probe oracle), and recording the observable
events.  An exhausted oracle leaves the handler still waiting. -/

/-- Observable events of one orchestration run. -/
inductive Event where
  | wake : Event
  | probe : String → Bool → Event
  | sleep : Event
deriving DecidableEq

/-- Terminal status of an orchestration run against finite oracles. -/
inductive RunOutcome where
  | failed : WolError → RunOutcome
  | waiting : RunOutcome
  | completed : RunOutcome
deriving DecidableEq

/-- One `while not is_online(t): time.sleep(1)` loop, driven by the finite
list of successive probe results: returns the emitted events and whether
the loop exited (last probe returned `true`). -/
def pollLoop (t : String) : List Bool → List Event × Bool
  | [] => ([], false)
  | r :: rest =>
    if r then ([Event.probe t true], true)
    else
      let p := pollLoop t rest
      (Event.probe t false :: Event.sleep :: p.1, p.2)

/-- Hard-coded hardware address of the AI server (server.py line 28). -/
def AI_SERVER_MAC : String := "D8:CB:8A:40:15:E5"

/-- First poll target: the bare address of the AI server host. -/
def T1 : String := "192.168.23.22"

/-- Second poll target: the named web UI host. -/
def T2 : String := "openwebui.illerit.de"

/-- Orchestration tail after a successful wake signal: poll `T1` until
reachable, then `T2` until reachable. -/
def after_wake (o1 o2 : List Bool) : RunOutcome × List Event :=
  let p1 := pollLoop T1 o1
  if p1.2 = false then (RunOutcome.waiting, Event.wake :: p1.1)
  else
    let p2 := pollLoop T2 o2
    ((if p2.2 = true then RunOutcome.completed else RunOutcome.waiting),
      Event.wake :: (p1.1 ++ p2.1))

/-- Orchestration body generalized over the hardware address: send the
wake signal; a `ValueError` propagates immediately and nothing else
happens.  Otherwise poll the two targets in order. -/
def run_orchestration (mac : String) (o1 o2 : List Bool) : RunOutcome × List Event :=
  match wake_on_lan mac with
  | Except.error e => (RunOutcome.failed e, [])
  | Except.ok _ => after_wake o1 o2

/-- Model of the `/get-webui` handler: the orchestration at the fixed
configured hardware address.  `RunOutcome.completed` corresponds to the
HTTP 200 response being returned. -/
def api_log_redirect (o1 o2 : List Bool) : RunOutcome × List Event :=
  run_orchestration AI_SERVER_MAC o1 o2

/-- Recognizer for the wake event. -/
def isWakeEv : Event → Bool
  | Event.wake => true
  | _ => false

/-- Recognizer for a probe event on a given target. -/
def isProbeOf (t : String) : Event → Bool
  | Event.probe s _ => s == t
  | _ => false

/-- Recognizer for the inter-attempt delay event. -/
def isSleepEv : Event → Bool
  | Event.sleep => true
  | _ => false

/-- Probe events for a given target in a trace. -/
def countProbes (t : String) (evs : List Event) : Nat :=
  (evs.filter (isProbeOf t)).length

/-- Wake events in a trace. -/
def countWakes (evs : List Event) : Nat :=
  (evs.filter isWakeEv).length

/-- Inter-attempt delays (`time.sleep(1)`) in a trace. -/
def countSleeps (evs : List Event) : Nat :=
  (evs.filter isSleepEv).length

/-! ## Concrete environments used by witnesses and counterexamples -/

/-- Environment where both primitives work: every echo probe succeeds and
every GET answers 200. -/
def env0 : ProbeEnv :=
  { ping := fun _ => some 0, http := fun _ => some 200 }

/-- Environment where the probe mechanism is unavailable: spawning the
echo probe raises `FileNotFoundError`; HTTP still answers 200. -/
def envNoPing : ProbeEnv :=
  { ping := fun _ => none, http := fun _ => some 200 }

/-- Environment where every HTTP probe answers status 404. -/
def env404 : ProbeEnv :=
  { ping := fun _ => some 0, http := fun _ => some 404 }

/-! ## Generic instances -/

instance exceptDecEq {ε α : Type} [DecidableEq ε] [DecidableEq α] :
    DecidableEq (Except ε α) := fun a b =>
  match a, b with
  | Except.ok x, Except.ok y =>
    if h : x = y then Decidable.isTrue (by rw [h])
    else Decidable.isFalse (fun hc => h (Except.ok.inj hc))
  | Except.error x, Except.error y =>
    if h : x = y then Decidable.isTrue (by rw [h])
    else Decidable.isFalse (fun hc => h (Except.error.inj hc))
  | Except.ok _, Except.error _ => Decidable.isFalse (fun hc => Except.noConfusion hc)
  | Except.error _, Except.ok _ => Decidable.isFalse (fun hc => Except.noConfusion hc)

/-! ## Lemmas about `fromhex` -/

lemma hexVal_ranges {c : Char} {x : Nat} (h : hexVal? c = some x) :
    (48 ≤ c.toNat ∧ c.toNat ≤ 57) ∨ (65 ≤ c.toNat ∧ c.toNat ≤ 70) ∨
      (97 ≤ c.toNat ∧ c.toNat ≤ 102) := by
  unfold hexVal? at h
  split_ifs at h with h1 h2 h3
  · exact Or.inl h1
  · exact Or.inr (Or.inl h2)
  · exact Or.inr (Or.inr h3)

lemma hex_not_space {c : Char} {x : Nat} (h : hexVal? c = some x) :
    isPySpace c = false := by
  have hr := hexVal_ranges h
  simp only [isPySpace, decide_eq_false_iff_not]
  omega

lemma hexVal_of_isHexChar {c : Char} (h : isHexChar c = true) :
    ∃ x, hexVal? c = some x := by
  simp only [isHexChar, decide_eq_true_eq] at h
  unfold hexVal?
  split_ifs with h1 h2 h3
  · exact ⟨_, rfl⟩
  · exact ⟨_, rfl⟩
  · exact ⟨_, rfl⟩
  · omega

lemma hexVal_none_of_not_hex {c : Char} (h : isHexChar c = false) :
    hexVal? c = none := by
  simp only [isHexChar, decide_eq_false_iff_not] at h
  unfold hexVal?
  split_ifs with h1 h2 h3
  · exact absurd (Or.inl h1) h
  · exact absurd (Or.inr (Or.inl h2)) h
  · exact absurd (Or.inr (Or.inr h3)) h
  · rfl

lemma fromhex_cons_pair {c d : Char} {x y : Nat} (hc : hexVal? c = some x)
    (hd : hexVal? d = some y) (rest : List Char) :
    fromhex (c :: d :: rest) = (fromhex rest).map (fun bs => (16 * x + y) :: bs) := by
  simp [fromhex, hex_not_space hc, hc, hd]

lemma fromhex_allhex_aux : ∀ (n : Nat) (s : List Char), s.length ≤ n →
    s.all isHexChar = true → s.length % 2 = 0 →
    ∃ a, fromhex s = some a ∧ a.length = s.length / 2 ∧
      ∀ t, fromhex (s ++ t) = (fromhex t).map (fun bs => a ++ bs) := by
  intro n
  induction n with
  | zero =>
    intro s hlen _ _
    match s with
    | [] =>
      refine ⟨[], rfl, rfl, fun t => ?_⟩
      rw [List.nil_append]
      cases fromhex t <;> simp
    | c :: rest => simp at hlen
  | succ n ih =>
    intro s hlen hall hev
    match s with
    | [] =>
      refine ⟨[], rfl, rfl, fun t => ?_⟩
      rw [List.nil_append]
      cases fromhex t <;> simp
    | [c] => simp at hev
    | c :: d :: rest =>
      simp only [List.all_cons, Bool.and_eq_true] at hall
      obtain ⟨x, hx⟩ := hexVal_of_isHexChar hall.1
      obtain ⟨y, hy⟩ := hexVal_of_isHexChar hall.2.1
      have hlenr : rest.length ≤ n := by
        simp only [List.length_cons] at hlen; omega
      have hevr : rest.length % 2 = 0 := by
        simp only [List.length_cons] at hev ⊢; omega
      obtain ⟨a, ha, halen, happ⟩ := ih rest hlenr hall.2.2 hevr
      refine ⟨(16 * x + y) :: a, ?_, ?_, ?_⟩
      · rw [fromhex_cons_pair hx hy, ha]; rfl
      · simp only [List.length_cons, halen]; omega
      · intro t
        have : (c :: d :: rest) ++ t = c :: d :: (rest ++ t) := rfl
        rw [this, fromhex_cons_pair hx hy, happ t]
        cases fromhex t <;> simp

lemma fromhex_allhex (s : List Char) (hall : s.all isHexChar = true)
    (hev : s.length % 2 = 0) :
    ∃ a, fromhex s = some a ∧ a.length = s.length / 2 ∧
      ∀ t, fromhex (s ++ t) = (fromhex t).map (fun bs => a ++ bs) :=
  fromhex_allhex_aux s.length s le_rfl hall hev

lemma fromhex_bad_aux : ∀ (n : Nat) (s : List Char), s.length ≤ n →
    ∀ c, c ∈ s → isHexChar c = false → isPySpace c = false → fromhex s = none := by
  intro n
  induction n with
  | zero =>
    intro s hlen c hc _ _
    match s with
    | [] => exact absurd hc (List.not_mem_nil c)
    | e :: rest => simp at hlen
  | succ n ih =>
    intro s hlen c hc hhex hsp
    match s with
    | [] => exact absurd hc (List.not_mem_nil c)
    | [e] =>
      have hce : c = e := by simpa using hc
      subst hce
      simp [fromhex, hsp]
    | e :: d :: rest =>
      have hlen2 : (d :: rest).length ≤ n := by
        simp only [List.length_cons] at hlen ⊢; omega
      cases hse : isPySpace e with
      | true =>
        have hce : c ≠ e := fun hh => by rw [hh, hse] at hsp; exact Bool.noConfusion hsp
        have hcmem : c ∈ d :: rest := by
          rcases List.mem_cons.mp hc with h | h
          · exact absurd h hce
          · exact h
        simp only [fromhex, hse, if_true]
        exact ih (d :: rest) hlen2 c hcmem hhex hsp
      | false =>
        cases he : hexVal? e with
        | none => simp [fromhex, hse, he]
        | some xe =>
          cases hd : hexVal? d with
          | none => simp [fromhex, hse, he, hd]
          | some xd =>
            have hcnone : hexVal? c = none := hexVal_none_of_not_hex hhex
            have hce : c ≠ e := fun hh => by rw [hh, he] at hcnone; exact Option.noConfusion hcnone
            have hcd : c ≠ d := fun hh => by rw [hh, hd] at hcnone; exact Option.noConfusion hcnone
            have hcmem : c ∈ rest := by
              rcases List.mem_cons.mp hc with h | h
              · exact absurd h hce
              rcases List.mem_cons.mp h with h2 | h2
              · exact absurd h2 hcd
              · exact h2
            have hlenr : rest.length ≤ n := by
              simp only [List.length_cons] at hlen; omega
            rw [fromhex_cons_pair he hd, ih rest hlenr c hcmem hhex hsp]
            rfl

lemma fromhex_none_of_bad {s : List Char} {c : Char} (hc : c ∈ s)
    (hhex : isHexChar c = false) (hsp : isPySpace c = false) : fromhex s = none :=
  fromhex_bad_aux s.length s le_rfl c hc hhex hsp

/-! ## Lemmas about `repList` -/

lemma repList_length {α : Type} (l : List α) : ∀ n, (repList n l).length = n * l.length := by
  intro n
  induction n with
  | zero => simp [repList]
  | succ n ih => simp only [repList, List.length_append, ih]; ring

lemma fromhex_repList {l : List Char} {a : List Nat}
    (happ : ∀ t, fromhex (l ++ t) = (fromhex t).map (fun bs => a ++ bs)) :
    ∀ n, fromhex (repList n l) = some (repList n a) := by
  intro n
  induction n with
  | zero => rfl
  | succ n ih =>
    show fromhex (l ++ repList n l) = _
    rw [happ, ih]
    rfl

lemma mem_repList {α : Type} {c : α} {l : List α} (h : c ∈ l) :
    ∀ {n : Nat}, 0 < n → c ∈ repList n l := by
  intro n hn
  match n, hn with
  | Nat.succ n, _ => exact List.mem_append_left _ h

lemma repList_map {α β : Type} (f : α → β) (l : List α) :
    ∀ n, repList n (l.map f) = (repList n l).map f := by
  intro n
  induction n with
  | zero => rfl
  | succ n ih => simp only [repList, List.map_append, ih]

/-! ## The shape of the packet for a valid address -/

lemma isValidMac_parts {mac : String} (h : isValidMac mac = true) :
    (normalizeMac mac).length = 12 ∧ (normalizeMac mac).all isHexChar = true := by
  simp only [isValidMac, Bool.and_eq_true, beq_iff_eq] at h
  exact h

lemma wake_ok_of_valid {mac : String} (h : isValidMac mac = true) :
    wake_on_lan mac = Except.ok (specPacket mac) ∧
    ((fromhex (normalizeMac mac)).getD []).length = 6 ∧
    (specPacket mac).length = 102 := by
  obtain ⟨hlen, hall⟩ := isValidMac_parts h
  obtain ⟨a, ha, halen, happ⟩ := fromhex_allhex (normalizeMac mac) hall (by omega)
  obtain ⟨aF, haF, haFlen, happF⟩ :=
    fromhex_allhex (repList 6 ['F', 'F']) (by decide) (by decide)
  have haFval : aF = List.replicate 6 255 := by
    have hcomp : fromhex (repList 6 ['F', 'F']) = some (List.replicate 6 255) := by decide
    exact Option.some.inj (haF.symm.trans hcomp)
  have hrep : fromhex (repList 16 (normalizeMac mac)) = some (repList 16 a) :=
    fromhex_repList happ 16
  have halen6 : a.length = 6 := by rw [halen, hlen]
  have hgetD : (fromhex (normalizeMac mac)).getD [] = a := by rw [ha]; rfl
  have hpayload : fromhex (repList 6 ['F', 'F'] ++ repList 16 (normalizeMac mac)) =
      some (List.replicate 6 255 ++ repList 16 a) := by
    rw [happF, hrep, haFval]; rfl
  refine ⟨?_, ?_, ?_⟩
  · simp only [wake_on_lan, hlen, if_true, hpayload, specPacket, hgetD]
  · rw [hgetD]; exact halen6
  · simp only [specPacket, hgetD, List.length_append, List.length_replicate,
      repList_length, halen6]

/-! ## C5: hardware-address normalization -/

/-- C5: the colon-, hyphen- and separator-free spellings all normalize to
the same 12-character value, and the short address `AA:BB:CC` makes
`wake_on_lan` fail with the invalid-address `ValueError`. -/
theorem c5_normalization :
    normalizeMac ("AA:BB:CC:DD:EE:FF") = ("AABBCCDDEEFF").data ∧
    normalizeMac ("AA-BB-CC-DD-EE-FF") = ("AABBCCDDEEFF").data ∧
    normalizeMac ("AABBCCDDEEFF") = ("AABBCCDDEEFF").data ∧
    (normalizeMac ("AA:BB:CC:DD:EE:FF")).length = 12 ∧
    wake_on_lan ("AA:BB:CC") = Except.error WolError.lengthError := by
  decide

/-! ## C2: probe counts for the oracle false, false, true / true -/

/-- C2 counterexample: with prober results `false, false, true` for the
first target, the orchestrator makes 3 probe attempts on it, not 2. -/
theorem c2_counterexample :
    countProbes T1 (api_log_redirect [false, false, true] [true]).2 ≠ 2 := by
  decide

/-- C2 amended: with prober results `false, false, true` for `T1` and
`true` for `T2`, exactly 3 probe attempts are made on `T1`, with two
inter-attempt delays, before `T2` is probed exactly once, and the call
completes only after the probe of `T2` succeeds (it is the last event). -/
theorem c2_amended :
    api_log_redirect [false, false, true] [true] =
      (RunOutcome.completed,
        [Event.wake, Event.probe T1 false, Event.sleep, Event.probe T1 false,
         Event.sleep, Event.probe T1 true, Event.probe T2 true]) ∧
    countProbes T1 (api_log_redirect [false, false, true] [true]).2 = 3 ∧
    countSleeps (api_log_redirect [false, false, true] [true]).2 = 2 ∧
    countProbes T2 (api_log_redirect [false, false, true] [true]).2 = 1 ∧
    (api_log_redirect [false, false, true] [true]).2.getLast? =
      some (Event.probe T2 true) := by
  decide

/-! ## C1 and C7 counterexamples -/

/-- C1 counterexample: with the echo-probe mechanism unavailable
(`subprocess.call` raises `FileNotFoundError`), the status endpoint for
the address `203.0.113.5` propagates the exception instead of answering
`online: false` with HTTP 200. -/
theorem c1_counterexample :
    api_web_ui_status envNoPing ("203.0.113.5") =
      Except.error ProbeError.fileNotFound ∧
    api_web_ui_status envNoPing ("203.0.113.5") ≠ Except.ok (false, 200) := by
  decide

/-- C7 counterexample: `http://[` is a Named-variant target (it is not an
IP literal), yet `is_online` raises the `ValueError` of `urlparse` instead
of returning any boolean, for every environment, here the one answering
200 everywhere. -/
theorem c7_counterexample :
    _is_ip_address ("http://[") = false ∧
    is_online env0 ("http://[") = Except.error ProbeError.valueError := by
  decide

/-! ## C6: shape of the wake-signal payload -/

/-- C6: for every valid hardware address (12 hexadecimal characters after
normalization), `wake_on_lan` deterministically broadcasts the packet
consisting of 6 bytes of `0xFF` followed by the 6-byte address repeated
16 times, 102 bytes in total. -/
theorem c6_packet (mac : String) (h : isValidMac mac = true) :
    wake_on_lan mac = Except.ok (specPacket mac) ∧
    specPacket mac =
      List.replicate 6 255 ++ repList 16 ((fromhex (normalizeMac mac)).getD []) ∧
    ((fromhex (normalizeMac mac)).getD []).length = 6 ∧
    (specPacket mac).length = 102 :=
  ⟨(wake_ok_of_valid h).1, rfl, (wake_ok_of_valid h).2.1, (wake_ok_of_valid h).2.2⟩

/-- C6 witness: the configured address is valid and yields the 102-byte
packet. -/
theorem c6_witness :
    isValidMac ("D8:CB:8A:40:15:E5") = true ∧
    wake_on_lan ("D8:CB:8A:40:15:E5") = Except.ok (specPacket ("D8:CB:8A:40:15:E5")) ∧
    (specPacket ("D8:CB:8A:40:15:E5")).length = 102 :=
  ⟨by decide, (c6_packet _ (by decide)).1, (c6_packet _ (by decide)).2.2.2⟩

/-! ## C9: raising before the socket is opened -/

/-- C9 amended: `wake_on_lan` raises before any socket is opened whenever
the normalized address does not have length 12, or contains a character
that is neither a hexadecimal digit nor ASCII whitespace; a 12-character
normalized form whose non-hex characters are all whitespace placed at
byte boundaries is, however, accepted (see the counterexample, which
broadcasts a short datagram). -/
theorem c9_amended (mac : String)
    (h : (normalizeMac mac).length ≠ 12 ∨
      ∃ c ∈ normalizeMac mac, isHexChar c = false ∧ isPySpace c = false) :
    raisesWol mac = true ∧ payloadLen mac = none := by
  have hfail : ∀ e, wake_on_lan mac = Except.error e →
      raisesWol mac = true ∧ payloadLen mac = none := by
    intro e he
    constructor
    · simp only [raisesWol, he]
    · simp only [payloadLen, he]
  by_cases hlen : (normalizeMac mac).length = 12
  · rcases h with h | ⟨c, hcm, hhex, hsp⟩
    · exact absurd hlen h
    · have hmem : c ∈ repList 6 ['F', 'F'] ++ repList 16 (normalizeMac mac) :=
        List.mem_append_right _ (mem_repList hcm (by omega))
      have hnone := fromhex_none_of_bad hmem hhex hsp
      refine hfail WolError.fromhexError ?_
      simp only [wake_on_lan, hlen, if_true, hnone]
  · refine hfail WolError.lengthError ?_
    simp only [wake_on_lan, hlen, if_false]

/-- C9 witness: an address whose normalized form has length 12 but
contains the non-hexadecimal, non-whitespace character `G` raises and
sends nothing. -/
theorem c9_witness :
    raisesWol ("AABBCCDDEEFG") = true ∧ payloadLen ("AABBCCDDEEFG") = none :=
  c9_amended ("AABBCCDDEEFG") (Or.inr ⟨'G', by decide, by decide, by decide⟩)

/-! ## C10: case invariance of the packet -/

/-- Pointwise relation under which `fromhex` cannot distinguish two
characters. -/
def charRel (c d : Char) : Prop :=
  hexVal? c = hexVal? d ∧ isPySpace c = isPySpace d

lemma fromhex_congr_aux : ∀ (n : Nat) (l l' : List Char), l.length ≤ n →
    List.Forall₂ charRel l l' → fromhex l = fromhex l' := by
  intro n
  induction n with
  | zero =>
    intro l l' hlen hrel
    cases hrel with
    | nil => rfl
    | cons h1 htail => simp at hlen
  | succ n ih =>
    intro l l' hlen hrel
    cases hrel with
    | nil => rfl
    | @cons a b as bs h1 htail =>
      cases htail with
      | nil =>
        show fromhex [a] = fromhex [b]
        unfold fromhex
        rw [h1.2]
      | @cons c d cs ds h2 htail2 =>
        cases hsa : isPySpace a with
        | true =>
          have hsb : isPySpace b = true := h1.2 ▸ hsa
          simp only [fromhex, hsa, hsb, if_true]
          refine ih (c :: cs) (d :: ds) ?_ (List.Forall₂.cons h2 htail2)
          simp only [List.length_cons] at hlen ⊢; omega
        | false =>
          have hsb : isPySpace b = false := h1.2 ▸ hsa
          cases hva : hexVal? a with
          | none =>
            have hvb : hexVal? b = none := h1.1 ▸ hva
            simp [fromhex, hsa, hsb, hva, hvb]
          | some x =>
            have hvb : hexVal? b = some x := h1.1 ▸ hva
            cases hvc : hexVal? c with
            | none =>
              have hvd : hexVal? d = none := h2.1 ▸ hvc
              simp [fromhex, hsa, hsb, hva, hvb, hvc, hvd]
            | some y =>
              have hvd : hexVal? d = some y := h2.1 ▸ hvc
              rw [fromhex_cons_pair hva hvc, fromhex_cons_pair hvb hvd]
              have : fromhex cs = fromhex ds := by
                refine ih cs ds ?_ htail2
                simp only [List.length_cons] at hlen; omega
              rw [this]

lemma fromhex_congr {l l' : List Char} (h : List.Forall₂ charRel l l') :
    fromhex l = fromhex l' :=
  fromhex_congr_aux l.length l l' le_rfl h

lemma toNat_ofNat_valid {n : Nat} (h : n < 55296) : (Char.ofNat n).toNat = n := by
  have hv : n.isValidChar := Or.inl h
  unfold Char.ofNat
  rw [dif_pos hv]
  rfl

lemma char_ne_of_toNat_ne {a b : Char} (h : a.toNat ≠ b.toNat) : a ≠ b :=
  fun he => h (congrArg Char.toNat he)

lemma charRel_lower (c : Char) : charRel (asciiLower c) c := by
  unfold asciiLower
  split_ifs with h
  · have ht : (Char.ofNat (c.toNat + 32)).toNat = c.toNat + 32 :=
      toNat_ofNat_valid (by omega)
    constructor
    · simp only [hexVal?, ht]
      split_ifs <;>
        first
          | rfl
          | (simp only [Option.some.injEq]; omega)
          | (exfalso; omega)
    · simp only [isPySpace, ht, decide_eq_decide]
      omega
  · exact ⟨rfl, rfl⟩

lemma charRel_upper (c : Char) : charRel (asciiUpper c) c := by
  unfold asciiUpper
  split_ifs with h
  · have ht : (Char.ofNat (c.toNat - 32)).toNat = c.toNat - 32 :=
      toNat_ofNat_valid (by omega)
    constructor
    · simp only [hexVal?, ht]
      split_ifs <;>
        first
          | rfl
          | (simp only [Option.some.injEq]; omega)
          | (exfalso; omega)
    · simp only [isPySpace, ht, decide_eq_decide]
      omega
  · exact ⟨rfl, rfl⟩

lemma lower_sep (c : Char) :
    (!(asciiLower c == ':' || asciiLower c == '-')) = (!(c == ':' || c == '-')) := by
  unfold asciiLower
  split_ifs with h
  · have ht : (Char.ofNat (c.toNat + 32)).toNat = c.toNat + 32 :=
      toNat_ofNat_valid (by omega)
    have e1 : (':' : Char).toNat = 58 := rfl
    have e2 : ('-' : Char).toNat = 45 := rfl
    have h1 : (Char.ofNat (c.toNat + 32)) ≠ ':' := char_ne_of_toNat_ne (by omega)
    have h2 : (Char.ofNat (c.toNat + 32)) ≠ '-' := char_ne_of_toNat_ne (by omega)
    have h3 : c ≠ ':' := char_ne_of_toNat_ne (by omega)
    have h4 : c ≠ '-' := char_ne_of_toNat_ne (by omega)
    rw [beq_eq_false_iff_ne.mpr h1, beq_eq_false_iff_ne.mpr h2,
      beq_eq_false_iff_ne.mpr h3, beq_eq_false_iff_ne.mpr h4]
  · rfl

lemma upper_sep (c : Char) :
    (!(asciiUpper c == ':' || asciiUpper c == '-')) = (!(c == ':' || c == '-')) := by
  unfold asciiUpper
  split_ifs with h
  · have ht : (Char.ofNat (c.toNat - 32)).toNat = c.toNat - 32 :=
      toNat_ofNat_valid (by omega)
    have e1 : (':' : Char).toNat = 58 := rfl
    have e2 : ('-' : Char).toNat = 45 := rfl
    have h1 : (Char.ofNat (c.toNat - 32)) ≠ ':' := char_ne_of_toNat_ne (by omega)
    have h2 : (Char.ofNat (c.toNat - 32)) ≠ '-' := char_ne_of_toNat_ne (by omega)
    have h3 : c ≠ ':' := char_ne_of_toNat_ne (by omega)
    have h4 : c ≠ '-' := char_ne_of_toNat_ne (by omega)
    rw [beq_eq_false_iff_ne.mpr h1, beq_eq_false_iff_ne.mpr h2,
      beq_eq_false_iff_ne.mpr h3, beq_eq_false_iff_ne.mpr h4]
  · rfl

lemma forall2_charRel_refl : ∀ l : List Char, List.Forall₂ charRel l l := by
  intro l
  induction l with
  | nil => exact List.Forall₂.nil
  | cons c rest ih => exact List.Forall₂.cons ⟨rfl, rfl⟩ ih

lemma forall2_charRel_map (u : Char → Char) (hu : ∀ c, charRel (u c) c) :
    ∀ l : List Char, List.Forall₂ charRel (l.map u) l := by
  intro l
  induction l with
  | nil => exact List.Forall₂.nil
  | cons c rest ih => exact List.Forall₂.cons (hu c) ih

lemma forall2_charRel_append {a b c d : List Char} (h1 : List.Forall₂ charRel a b)
    (h2 : List.Forall₂ charRel c d) : List.Forall₂ charRel (a ++ c) (b ++ d) := by
  induction h1 with
  | nil => exact h2
  | cons h _ ih => exact List.Forall₂.cons h ih

lemma normalizeMac_strMap (u : Char → Char)
    (hsep : ∀ c, (!(u c == ':' || u c == '-')) = (!(c == ':' || c == '-')))
    (s : String) : normalizeMac (strMap u s) = (normalizeMac s).map u := by
  show (s.data.map u).filter _ = _
  rw [List.filter_map]
  exact congrArg (List.map u) (List.filter_congr (fun c _ => hsep c))

lemma wake_strMap (u : Char → Char) (hu : ∀ c, charRel (u c) c)
    (hsep : ∀ c, (!(u c == ':' || u c == '-')) = (!(c == ':' || c == '-')))
    (mac : String) : wake_on_lan (strMap u mac) = wake_on_lan mac := by
  have hn : normalizeMac (strMap u mac) = (normalizeMac mac).map u :=
    normalizeMac_strMap u hsep mac
  simp only [wake_on_lan, hn, List.length_map]
  by_cases hlen : (normalizeMac mac).length = 12
  · simp only [hlen, if_true]
    have hmac : fromhex (repList 6 ['F', 'F'] ++ repList 16 ((normalizeMac mac).map u)) =
        fromhex (repList 6 ['F', 'F'] ++ repList 16 (normalizeMac mac)) := by
      apply fromhex_congr
      refine forall2_charRel_append (forall2_charRel_refl _) ?_
      rw [repList_map]
      exact forall2_charRel_map u hu _
    rw [hmac]
  · simp only [hlen, if_false]

/-- C10: for every valid hardware address, the lowercase and the uppercase
spellings build the identical 102-byte magic packet. -/
theorem c10_case_invariance (mac : String) (h : isValidMac mac = true) :
    wake_on_lan (strLower mac) = Except.ok (specPacket mac) ∧
    wake_on_lan (strUpper mac) = Except.ok (specPacket mac) ∧
    wake_on_lan (strLower mac) = wake_on_lan (strUpper mac) ∧
    (specPacket mac).length = 102 := by
  have hlow : wake_on_lan (strLower mac) = wake_on_lan mac :=
    wake_strMap asciiLower charRel_lower lower_sep mac
  have hup : wake_on_lan (strUpper mac) = wake_on_lan mac :=
    wake_strMap asciiUpper charRel_upper upper_sep mac
  obtain ⟨hok, _, hlen102⟩ := wake_ok_of_valid h
  exact ⟨hlow.trans hok, hup.trans hok, (hlow.trans hok).trans (hup.trans hok).symm, hlen102⟩

/-- C10 witness: the configured address, spelled `d8:cb:8a:40:15:e5` and
`D8:CB:8A:40:15:E5`, gives the same broadcast packet. -/
theorem c10_witness :
    isValidMac ("D8:CB:8A:40:15:E5") = true ∧
    wake_on_lan (strLower ("D8:CB:8A:40:15:E5")) =
      wake_on_lan (strUpper ("D8:CB:8A:40:15:E5")) :=
  ⟨by decide, (c10_case_invariance ("D8:CB:8A:40:15:E5") (by decide)).2.2.1⟩

/-- C9 counterexample: the input `AABBCCDDEE  ` (ten hexadecimal digits
and two spaces) has a 12-character normalized form containing non-
hexadecimal characters, yet `wake_on_lan` does not raise: it opens the
socket and broadcasts a short 86-byte datagram, because `bytes.fromhex`
skips ASCII whitespace between byte pairs. -/
theorem c9_counterexample :
    (normalizeMac ("AABBCCDDEE  ")).length = 12 ∧
    (normalizeMac ("AABBCCDDEE  ")).all isHexChar = false ∧
    payloadLen ("AABBCCDDEE  ") = some 86 := by
  decide

/-! ## C4: totality and determinism of target classification -/

/-- C4: classification is total and deterministic: a string is the Address
variant exactly when it strictly parses as an IPv4 or IPv6 literal, the
Named variant exactly otherwise, never both, and `is_online` probes the
Address variant with the echo probe and the Named variant with the HTTP
probe. -/
theorem c4_classification (t : String) (env : ProbeEnv) :
    (classify t = TargetClass.address ↔ _is_ip_address t = true) ∧
    (classify t = TargetClass.named ↔ _is_ip_address t = false) ∧
    ((classify t = TargetClass.address ∧ classify t ≠ TargetClass.named) ∨
      (classify t = TargetClass.named ∧ classify t ≠ TargetClass.address)) ∧
    is_online env t =
      (if classify t = TargetClass.address then ping_probe env t
       else http_probe env t) := by
  unfold classify is_online
  cases h : _is_ip_address t <;> simp [h]

/-- C4 witness: the two targets of the poll plan get opposite variants. -/
theorem c4_witness :
    classify ("192.168.23.22") = TargetClass.address ∧
    classify ("openwebui.illerit.de") = TargetClass.named :=
  ⟨(c4_classification ("192.168.23.22") env0).1.mpr (by decide),
   (c4_classification ("openwebui.illerit.de") env0).2.1.mpr (by decide)⟩

/-! ## C7: the Named-variant probe -/

/-- C7 amended: for every Named-variant target whose URL parse succeeds,
the prober prepends `http://` exactly when no scheme is present, and the
result is `true` iff the GET answers status exactly 200, with every
transport-layer failure (`requests.RequestException`) and every non-200
status giving `false`.  (Named-variant targets on which `urlparse` raises
are excluded; see the counterexample.) -/
theorem c7_amended (env : ProbeEnv) (t : String) (sch : List Char)
    (h1 : _is_ip_address t = false) (h2 : urlparseScheme t.data = Except.ok sch) :
    is_online env t =
      Except.ok (((env.http (namedUrl t sch)).map (fun code => code == 200)).getD false) ∧
    (sch = [] → namedUrl t sch = ("http://" ++ t)) ∧
    (sch ≠ [] → namedUrl t sch = t) := by
  refine ⟨?_, ?_, ?_⟩
  · unfold is_online http_probe
    simp only [h1, Bool.false_eq_true, if_false, h2]
    cases hh : env.http (namedUrl t sch) <;> simp
  · intro h
    subst h
    rfl
  · intro h
    cases sch with
    | nil => exact absurd rfl h
    | cons a rest => rfl

/-- C7 witness: the spec's 404 scenario: `example.internal` has no scheme,
the GET goes to `http://example.internal`, a 404 answer gives `false`. -/
theorem c7_witness :
    is_online env404 ("example.internal") = Except.ok false ∧
    namedUrl ("example.internal") [] = ("http://example.internal") :=
  ⟨(c7_amended env404 ("example.internal") [] (by decide) (by decide)).1, by decide⟩

/-! ## C1: the prober and the status endpoint do not raise -/

/-- C1 amended: whenever the probe mechanism is actually runnable (the
echo-probe executable exists for address targets; the URL parse succeeds
for named targets), `is_online` returns a boolean without raising and the
status endpoint answers `online: b` with HTTP 200.  When the echo probe
cannot be run, `is_online` instead raises `FileNotFoundError` and the
endpoint does not produce the 200 body (see the counterexample). -/
theorem c1_amended (env : ProbeEnv) (t : String) (h : probe_runnable env t = true) :
    is_online env t = Except.ok (onlineValue env t) ∧
    api_web_ui_status env t = Except.ok (onlineValue env t, 200) := by
  have hok : ∃ b, is_online env t = Except.ok b := by
    unfold probe_runnable at h
    unfold is_online ping_probe http_probe
    cases hip : _is_ip_address t
    · simp only [hip, Bool.false_eq_true, if_false] at h ⊢
      unfold urlOk at h
      cases hu : urlparseScheme t.data with
      | error e => rw [hu] at h; simp at h
      | ok sch =>
        dsimp only
        cases hh : env.http (namedUrl t sch)
        · exact ⟨false, rfl⟩
        · exact ⟨_, rfl⟩
    · simp only [hip, if_true] at h ⊢
      cases hp : env.ping (ping_command t) with
      | none => rw [hp] at h; simp at h
      | some code => exact ⟨_, rfl⟩
  obtain ⟨b, hb⟩ := hok
  have hval : onlineValue env t = b := by
    unfold onlineValue
    rw [hb]
  rw [hval]
  refine ⟨hb, ?_⟩
  unfold api_web_ui_status
  rw [hb]

/-- C1 witness: with a working echo probe, the status endpoint for the
address `203.0.113.5` answers with a boolean and HTTP 200. -/
theorem c1_witness :
    is_online env0 ("203.0.113.5") = Except.ok (onlineValue env0 ("203.0.113.5")) ∧
    api_web_ui_status env0 ("203.0.113.5") =
      Except.ok (onlineValue env0 ("203.0.113.5"), 200) :=
  c1_amended env0 ("203.0.113.5") (by decide)

/-! ## C8: a failing wake signal stops the orchestration -/

/-- C8: if the wake signaler raises its invalid-address `ValueError` at
the start of the orchestration, the failure propagates immediately and no
probe attempt is made on any target. -/
theorem c8_wake_failure (mac : String) (o1 o2 : List Bool) (e : WolError)
    (h : wake_on_lan mac = Except.error e) :
    run_orchestration mac o1 o2 = (RunOutcome.failed e, []) ∧
    (∀ t, countProbes t (run_orchestration mac o1 o2).2 = 0) := by
  constructor
  · unfold run_orchestration
    rw [h]
  · intro t
    unfold run_orchestration
    rw [h]
    rfl

/-- C8 witness: the short address `AA:BB:CC` makes the orchestration fail
immediately with no probe on the first target. -/
theorem c8_witness :
    run_orchestration ("AA:BB:CC") [true] [true] =
      (RunOutcome.failed WolError.lengthError, []) ∧
    countProbes T1 (run_orchestration ("AA:BB:CC") [true] [true]).2 = 0 :=
  ⟨(c8_wake_failure ("AA:BB:CC") [true] [true] WolError.lengthError (by decide)).1,
   (c8_wake_failure ("AA:BB:CC") [true] [true] WolError.lengthError (by decide)).2 T1⟩

/-! ## C3: wake-before-probe and strict target ordering -/

lemma pollLoop_mem (t : String) : ∀ (o : List Bool) (e : Event),
    e ∈ (pollLoop t o).1 → e = Event.sleep ∨ ∃ b, e = Event.probe t b := by
  intro o
  induction o with
  | nil =>
    intro e he
    simp [pollLoop] at he
  | cons r rest ih =>
    intro e he
    cases r with
    | true =>
      simp [pollLoop] at he
      exact Or.inr ⟨true, he⟩
    | false =>
      simp [pollLoop] at he
      rcases he with he | he | he
      · exact Or.inr ⟨false, he⟩
      · exact Or.inl he
      · exact ih e he

lemma pollLoop_succ_mem (t : String) : ∀ o : List Bool, (pollLoop t o).2 = true →
    Event.probe t true ∈ (pollLoop t o).1 := by
  intro o
  induction o with
  | nil =>
    intro h
    simp [pollLoop] at h
  | cons r rest ih =>
    intro h
    cases r with
    | true => simp [pollLoop]
    | false =>
      simp only [pollLoop] at h
      simp [pollLoop]
      exact ih h

lemma pollLoop_no_wake (t : String) (o : List Bool) :
    ∀ e ∈ (pollLoop t o).1, isWakeEv e = false := by
  intro e he
  rcases pollLoop_mem t o e he with h | ⟨b, h⟩ <;> subst h <;> rfl

lemma probe_ne_mem {t t2 : String} (hne : t2 ≠ t) {o : List Bool} {r : Bool} :
    Event.probe t2 r ∉ (pollLoop t o).1 := by
  intro hmem
  rcases pollLoop_mem t o _ hmem with h | ⟨b, h⟩
  · exact Event.noConfusion h
  · injection h with ht hb
    exact hne ht

lemma countWakes_wake_cons (l : List Event) (h : ∀ e ∈ l, isWakeEv e = false) :
    countWakes (Event.wake :: l) = 1 := by
  have hnil : l.filter isWakeEv = [] :=
    List.filter_eq_nil_iff.mpr (fun a ha => by rw [h a ha]; simp)
  unfold countWakes
  rw [List.filter_cons_of_pos rfl, hnil]
  rfl

/-- C3: in every orchestration run (also those still waiting when the
oracle runs out), the wake signal is the first event and occurs exactly
once, any probe of the second target is preceded by a successful probe of
the first, and every probe of the first target precedes every probe of
the second. -/
theorem c3_ordering (o1 o2 : List Bool) :
    countWakes (api_log_redirect o1 o2).2 = 1 ∧
    (api_log_redirect o1 o2).2.head? = some Event.wake ∧
    (∀ (i : Nat) (r : Bool),
      ((api_log_redirect o1 o2).2)[i]? = some (Event.probe T2 r) →
      ∃ j : Nat, j < i ∧
        ((api_log_redirect o1 o2).2)[j]? = some (Event.probe T1 true)) ∧
    (∀ (i j : Nat) (r s : Bool),
      ((api_log_redirect o1 o2).2)[i]? = some (Event.probe T1 r) →
      ((api_log_redirect o1 o2).2)[j]? = some (Event.probe T2 s) → i < j) := by
  have hT : T2 ≠ T1 := by decide
  have hT' : T1 ≠ T2 := by decide
  have hwake : wake_on_lan AI_SERVER_MAC = Except.ok (specPacket AI_SERVER_MAC) :=
    (wake_ok_of_valid (by decide)).1
  have hev : (api_log_redirect o1 o2).2 = (after_wake o1 o2).2 := by
    unfold api_log_redirect run_orchestration
    rw [hwake]
  rw [hev]
  by_cases h1 : (pollLoop T1 o1).2 = false
  · have hsh : (after_wake o1 o2).2 = Event.wake :: (pollLoop T1 o1).1 := by
      simp only [after_wake]
      rw [if_pos h1]
    rw [hsh]
    refine ⟨countWakes_wake_cons _ (pollLoop_no_wake T1 o1), rfl, ?_, ?_⟩
    · intro i r hi
      exfalso
      cases i with
      | zero =>
        rw [List.getElem?_cons_zero] at hi
        exact Event.noConfusion (Option.some.inj hi)
      | succ k =>
        rw [List.getElem?_cons_succ] at hi
        exact probe_ne_mem hT (List.getElem?_mem hi)
    · intro i j r s hi hj
      exfalso
      cases j with
      | zero =>
        rw [List.getElem?_cons_zero] at hj
        exact Event.noConfusion (Option.some.inj hj)
      | succ l =>
        rw [List.getElem?_cons_succ] at hj
        exact probe_ne_mem hT (List.getElem?_mem hj)
  · have h1' : (pollLoop T1 o1).2 = true := by
      cases hb : (pollLoop T1 o1).2
      · exact absurd hb h1
      · rfl
    have hsh : (after_wake o1 o2).2 =
        Event.wake :: ((pollLoop T1 o1).1 ++ (pollLoop T2 o2).1) := by
      simp only [after_wake]
      rw [if_neg h1]
    rw [hsh]
    have hnowake : ∀ e ∈ (pollLoop T1 o1).1 ++ (pollLoop T2 o2).1,
        isWakeEv e = false := by
      intro e he
      rcases List.mem_append.mp he with h | h
      · exact pollLoop_no_wake T1 o1 e h
      · exact pollLoop_no_wake T2 o2 e h
    refine ⟨countWakes_wake_cons _ hnowake, rfl, ?_, ?_⟩
    · intro i r hi
      cases i with
      | zero =>
        rw [List.getElem?_cons_zero] at hi
        exact Event.noConfusion (Option.some.inj hi)
      | succ k =>
        rw [List.getElem?_cons_succ] at hi
        have hk : ¬ k < (pollLoop T1 o1).1.length := by
          intro hk
          rw [List.getElem?_append_left hk] at hi
          exact probe_ne_mem hT (List.getElem?_mem hi)
        obtain ⟨j0, hj0lt, hj0⟩ :=
          List.getElem_of_mem (pollLoop_succ_mem T1 o1 h1')
        refine ⟨j0 + 1, by omega, ?_⟩
        rw [List.getElem?_cons_succ, List.getElem?_append_left hj0lt,
          List.getElem?_eq_getElem hj0lt, hj0]
    · intro i j r s hi hj
      cases i with
      | zero =>
        rw [List.getElem?_cons_zero] at hi
        exact Event.noConfusion (Option.some.inj hi)
      | succ k =>
        cases j with
        | zero =>
          rw [List.getElem?_cons_zero] at hj
          exact Event.noConfusion (Option.some.inj hj)
        | succ l =>
          rw [List.getElem?_cons_succ] at hi hj
          have hk : k < (pollLoop T1 o1).1.length := by
            by_contra hk
            rw [List.getElem?_append_right (by omega)] at hi
            exact probe_ne_mem hT' (List.getElem?_mem hi)
          have hl : (pollLoop T1 o1).1.length ≤ l := by
            by_contra hl
            rw [List.getElem?_append_left (by omega)] at hj
            exact probe_ne_mem hT (List.getElem?_mem hj)
          omega

/-- C3 witness: with both targets immediately reachable, the trace is
wake, then a probe of the first target, then a probe of the second. -/
theorem c3_witness :
    countWakes (api_log_redirect [true] [true]).2 = 1 ∧
    (api_log_redirect [true] [true]).2.head? = some Event.wake ∧
    ((api_log_redirect [true] [true]).2)[1]? = some (Event.probe T1 true) ∧
    ((api_log_redirect [true] [true]).2)[2]? = some (Event.probe T2 true) :=
  ⟨(c3_ordering [true] [true]).1, (c3_ordering [true] [true]).2.1,
    by decide, by decide⟩

end DadDashboard
